import Mathlib

/-!
Verification development for the chamannas hut-availability application.

The development shallowly embeds the parts of src/model.py, src/map_tools.py
exercised by the specification claims:

* Python dictionaries are embedded as association lists in insertion order
  (Dict below), with assignment overwriting in place and appending new keys
  at the end, exactly as Python dicts behave.
* The results dictionary entries (produced by web_request) are embedded as
  the structure HutResult with fields error, warning, request_time,
  requested_dates and places, mirroring the dict literals in web_request.py.
* Machine floats (latitudes, longitudes, heights, filter bounds) are embedded
  as rationals; only comparisons on them matter for the claims.
* The builtin sorted is embedded as a stable insertion sort: Python timsort
  is stable, and any two stable sorts agree for the total key orders used.
* The spherical distance function and the i18n label tables are pure inputs
  of the model; they are abstracted as fields of an Env parameter.
-/

namespace Chamannas

/-! ## Python dictionaries as association lists -/

/-- Dictionary embedded as an association list in key insertion order. -/
abbrev Dict (α β : Type) := List (α × β)

/-- Lookup of a key in a dictionary (Python: d[k] / k in d). -/
def dlookup {α β : Type} [DecidableEq α] : Dict α β → α → Option β
  | [], _ => none
  | (k, v) :: rest, a => if k = a then some v else dlookup rest a

/-- Assignment d[k] = v of a Python dict: an existing key keeps its position
and gets the new value, a new key is appended at the end. -/
def dinsert {α β : Type} [DecidableEq α] (k : α) (v : β) : Dict α β → Dict α β
  | [] => [(k, v)]
  | (k', v') :: rest => if k' = k then (k, v) :: rest else (k', v') :: dinsert k v rest

/-- Removal d.pop(k) of a Python dict key. -/
def dpop {α β : Type} [DecidableEq α] (k : α) : Dict α β → Dict α β
  | [] => []
  | (k', v') :: rest => if k' = k then rest else (k', v') :: dpop k rest

/-- Update in place of the value stored under a key (no effect if absent). -/
def dupdate {α β : Type} [DecidableEq α] (k : α) (f : β → β) : Dict α β → Dict α β
  | [] => []
  | (k', v') :: rest => if k' = k then (k', f v') :: rest else (k', v') :: dupdate k f rest

/-- Keys of a dictionary, in insertion order (Python: list(d.keys())). -/
def dkeys {α β : Type} (d : Dict α β) : List α := d.map Prod.fst

/-! ## Data model of the availability results (web_request.py / model.py)

Hut indexes are Nat, dates are Nat (consecutive days are consecutive numbers),
room types are strings.  Place counts are Int (Python ints). -/

abbrev HutId := Nat
abbrev Date := Nat
abbrev Room := String

/-- Result of a web request for one hut, as built by
web_request.perform_web_request_for_hut: a result dict with keys error,
warning, request_time, requested_dates (a set of dates) and places
(dict date to dict room to free places; the key "closed" with value 0
marks a closed date). -/
structure HutResult where
  error : Option String
  warning : Option String
  requestTime : Nat
  requestedDates : List Date
  places : Dict Date (Dict Room Int)
  deriving DecidableEq

/-- Results dictionary of the model: hut index to retrieved result. -/
abbrev Results := Dict HutId HutResult

/-- Sum of the values of one places-per-room dict
(the inner loop of model._available_places). -/
def sumRooms (rooms : Dict Room Int) : Int := (rooms.map Prod.snd).sum

/-- Embedding of HutsModel._check_open (model.py).  The dates argument is the
explicit list of requested dates (the claims never use the dates=None default).
Python iterates over set(dates); the conjunction over dates is order and
multiplicity independent, so iterating the list is equivalent. -/
def checkOpen (results : Results) (index : HutId) (dates : List Date) : Bool :=
  match dlookup results index with
  | none => false
  | some r =>
    if r.error.isSome then false
    else if ¬ (dates.all fun d => (dlookup r.places d).isSome) then false
    else dates.all fun d => ! (dkeys ((dlookup r.places d).getD [])).contains "closed"

/-- Embedding of HutsModel._available_places (model.py).  The empty-dates case
is unreachable in the claims (Python would raise ValueError on min of an empty
sequence); the minimum over the per-date sums is computed by a fold, which
agrees with min over set(dates) since min is order and duplicate independent. -/
def availablePlaces (results : Results) (index : HutId) (dates : List Date) : Int :=
  match dlookup results index with
  | none => 0
  | some r =>
    if r.error.isSome then 0
    else if ¬ (dates.all fun d => (dlookup r.places d).isSome) then 0
    else
      match dates.map (fun d => sumRooms ((dlookup r.places d).getD [])) with
      | [] => 0
      | s :: ss => ss.foldl min s

/-- Merge step of HutsModel._available_places_for_room: Python starts from an
empty dict (falsy, replaced by the first nonempty per-date dict) and then
takes pointwise minima over the keys already present, using 0 for a room
type missing on a later date. -/
def mergeRoomMin (acc apd : Dict Room Int) : Dict Room Int :=
  if acc.isEmpty then apd
  else acc.map fun rv =>
    (rv.1, match dlookup apd rv.1 with
           | none => 0
           | some w => min w rv.2)

/-- Embedding of HutsModel._available_places_for_room (model.py).  Python
iterates over set(dates) in unspecified order; the embedding iterates the list
in order.  The claims only use this function through properties that do not
depend on the iteration order (emptiness on missing data, and concrete inputs
evaluated on the list order). -/
def availablePlacesForRoom (results : Results) (index : HutId) (dates : List Date) :
    Dict Room Int :=
  match dlookup results index with
  | none => []
  | some r =>
    if r.error.isSome then []
    else if ¬ (dates.all fun d => (dlookup r.places d).isSome) then []
    else dates.foldl (fun acc d => mergeRoomMin acc ((dlookup r.places d).getD [])) []

/-! ## Helper lemmas about fold-min -/

lemma foldl_min_le_init (s : Int) (l : List Int) : l.foldl min s ≤ s := by
  induction l generalizing s with
  | nil => simp
  | cons a as ih =>
    simp only [List.foldl_cons]
    exact le_trans (ih (min s a)) (min_le_left s a)

lemma foldl_min_le_mem (s : Int) (l : List Int) (x : Int) (hx : x ∈ l) :
    l.foldl min s ≤ x := by
  induction l generalizing s with
  | nil => cases hx
  | cons a as ih =>
    simp only [List.foldl_cons]
    rcases List.mem_cons.mp hx with h | h
    · subst h
      exact le_trans (foldl_min_le_init _ _) (min_le_right s x)
    · exact ih (min s a) h

lemma foldl_min_attained (s : Int) (l : List Int) :
    l.foldl min s = s ∨ l.foldl min s ∈ l := by
  induction l generalizing s with
  | nil => simp
  | cons a as ih =>
    simp only [List.foldl_cons]
    rcases ih (min s a) with h | h
    · rcases min_cases s a with ⟨hm, _⟩ | ⟨hm, _⟩
      · exact Or.inl (h.trans hm)
      · refine Or.inr ?_
        rw [h, hm]
        exact List.mem_cons_self a as
    · exact Or.inr (List.mem_cons_of_mem a h)

/-! ## Concrete fixtures for witnesses -/

/-- Result with per-date free-bed totals 5, 3, 7 on dates 100, 101, 102
(the per-date sums of the spec test vector). -/
def r1 : HutResult :=
  { error := none, warning := none, requestTime := 0,
    requestedDates := [100, 101, 102],
    places := [(100, [("dormitory", 5)]),
               (101, [("dormitory", 3)]),
               (102, [("shared", 4), ("double", 3)])] }

/-- Results dictionary holding r1 for hut 1. -/
def res1 : Results := [(1, r1)]

/-- Result that is closed on date 101 but has free beds on date 100. -/
def r2 : HutResult :=
  { error := none, warning := none, requestTime := 0,
    requestedDates := [100, 101],
    places := [(100, [("dormitory", 5)]),
               (101, [("closed", 0), ("dormitory", 8)])] }

/-- Results dictionary holding r2 for hut 1. -/
def res2 : Results := [(1, r2)]

/-! ## C1: available is the minimum of per-date totals -/

/-- C1: for a hut and a non-empty list of requested dates, the derived value
of _available_places is 0 when the hut has no stored result, when the stored
result carries an error, or when some requested date is missing from the
stored places dict; otherwise it is a lower bound of every per-date total of
free beds (summed over room types) and is attained at some requested date,
i.e. it is exactly the minimum of the per-date totals. -/
theorem availablePlaces_min_spec (results : Results) (i : HutId) (dates : List Date)
    (r : HutResult) (hne : dates ≠ []) :
    (dlookup results i = none → availablePlaces results i dates = 0)
    ∧ (dlookup results i = some r → r.error.isSome = true →
        availablePlaces results i dates = 0)
    ∧ (dlookup results i = some r → (∃ d ∈ dates, dlookup r.places d = none) →
        availablePlaces results i dates = 0)
    ∧ (dlookup results i = some r → r.error = none →
        (∀ d ∈ dates, (dlookup r.places d).isSome) →
        (∀ d ∈ dates,
          availablePlaces results i dates ≤ sumRooms ((dlookup r.places d).getD []))
        ∧ ∃ d ∈ dates,
            availablePlaces results i dates = sumRooms ((dlookup r.places d).getD [])) := by
  refine ⟨?_, ?_, ?_, ?_⟩
  · intro h
    simp [availablePlaces, h]
  · intro h he
    simp [availablePlaces, h, he]
  · intro h hex
    have hall : ¬ ((dates.all fun d => (dlookup r.places d).isSome) = true) := by
      simp only [List.all_eq_true, not_forall]
      rcases hex with ⟨d, hd, hnone⟩
      refine ⟨d, hd, ?_⟩
      simp [hnone]
    by_cases he : r.error.isSome <;> simp [availablePlaces, h, he, hall]
  · intro h he hall
    have hAll : (dates.all fun d => (dlookup r.places d).isSome) = true := by
      rw [List.all_eq_true]
      intro d hd
      simpa using hall d hd
    have hes : r.error.isSome = false := by simp [he]
    obtain ⟨d0, ds, rfl⟩ : ∃ d0 ds, dates = d0 :: ds := by
      cases dates with
      | nil => exact absurd rfl hne
      | cons a l => exact ⟨a, l, rfl⟩
    have hval : availablePlaces results i (d0 :: ds) =
        (ds.map fun d => sumRooms ((dlookup r.places d).getD [])).foldl min
          (sumRooms ((dlookup r.places d0).getD [])) := by
      simp [availablePlaces, h, hes, hAll]
    constructor
    · intro d hd
      rw [hval]
      rcases List.mem_cons.mp hd with rfl | hm
      · exact foldl_min_le_init _ _
      · exact foldl_min_le_mem _ _ _
          (List.mem_map_of_mem (fun d => sumRooms ((dlookup r.places d).getD [])) hm)
    · rw [hval]
      rcases foldl_min_attained (sumRooms ((dlookup r.places d0).getD []))
          (ds.map fun d => sumRooms ((dlookup r.places d).getD [])) with hc | hc
      · exact ⟨d0, List.mem_cons_self _ _, hc⟩
      · rcases List.mem_map.mp hc with ⟨d, hd, hfd⟩
        exact ⟨d, List.mem_cons_of_mem _ hd, hfd.symm⟩

/-- Witness for C1 at the spec test vector: per-date totals 5, 3, 7 give
available equal to 3, the minimum, and the theorem gives the bound. -/
theorem availablePlaces_min_spec_witness :
    ([100, 101, 102] : List Date) ≠ []
    ∧ availablePlaces res1 1 [100, 101, 102] ≤ sumRooms ((dlookup r1.places 101).getD [])
    ∧ availablePlaces res1 1 [100, 101, 102] = 3 :=
  ⟨by decide,
   ((availablePlaces_min_spec res1 1 [100, 101, 102] r1 (by decide)).2.2.2
      rfl rfl (by decide)).1 101 (by decide),
   by decide⟩

/-! ## C7: open is false whenever one requested date is closed -/

/-- C7: the derived open flag of _check_open is false when the hut has no
stored result, when the stored result carries an error, when some requested
date is missing from the stored places dict, and also whenever at least one
requested date holds the "closed" sentinel, regardless of the other dates. -/
theorem checkOpen_false_spec (results : Results) (i : HutId) (dates : List Date)
    (r : HutResult) :
    (dlookup results i = none → checkOpen results i dates = false)
    ∧ (dlookup results i = some r → r.error.isSome = true →
        checkOpen results i dates = false)
    ∧ (dlookup results i = some r → (∃ d ∈ dates, dlookup r.places d = none) →
        checkOpen results i dates = false)
    ∧ (dlookup results i = some r →
        (∃ d ∈ dates, (dkeys ((dlookup r.places d).getD [])).contains "closed" = true) →
        checkOpen results i dates = false) := by
  refine ⟨?_, ?_, ?_, ?_⟩
  · intro h
    simp [checkOpen, h]
  · intro h he
    simp [checkOpen, h, he]
  · intro h hex
    have hall : ¬ ((dates.all fun d => (dlookup r.places d).isSome) = true) := by
      simp only [List.all_eq_true, not_forall]
      rcases hex with ⟨d, hd, hnone⟩
      refine ⟨d, hd, ?_⟩
      simp [hnone]
    by_cases he : r.error.isSome <;> simp [checkOpen, h, he, hall]
  · intro h hex
    have hex2 : ∃ d ∈ dates, "closed" ∈ dkeys ((dlookup r.places d).getD []) := by
      rcases hex with ⟨d, hd, hc⟩
      exact ⟨d, hd, by simpa using hc⟩
    by_cases he : r.error.isSome
    · simp [checkOpen, h, he]
    · by_cases hall : (dates.all fun d => (dlookup r.places d).isSome) = true
      · simp [checkOpen, h, he, hall]
        exact hex2
      · simp [checkOpen, h, he, hall]

/-- Witness for C7: hut 1 of res2 is closed on date 101 while having 5 free
beds on date 100; the open flag is false. -/
theorem checkOpen_false_spec_witness :
    dlookup res2 1 = some r2 ∧ checkOpen res2 1 [100, 101] = false :=
  ⟨rfl, (checkOpen_false_spec res2 1 [100, 101] r2).2.2.2 rfl ⟨101, by decide, by decide⟩⟩

/-! ## Merging of retrieved results (model._update_results_dictionary) -/

/-- Union of two Python sets embedded as lists (only membership matters;
the embedding keeps first-list order and appends the new elements). -/
def setUnion {α : Type} [DecidableEq α] (a b : List α) : List α :=
  a ++ b.filter fun x => decide (¬ x ∈ a)

/-- Merge of a stored result with a newly retrieved result for one hut:
error, warning and request_time are overwritten, requested_dates is updated
(set union) and every date of the new places dict is assigned into the
stored places dict (model.py lines 1131 to 1136). -/
def mergeResult (stored result : HutResult) : HutResult :=
  { error := result.error, warning := result.warning,
    requestTime := result.requestTime,
    requestedDates := setUnion stored.requestedDates result.requestedDates,
    places := result.places.foldl (fun pl dv => dinsert dv.1 dv.2 pl) stored.places }

/-- Embedding of HutsModel._update_results_dictionary: a hut without a stored
result gets the new result inserted as-is, otherwise the stored entry is
replaced in place by the merge of the stored and the new result. -/
def updateResultsDictionary (results newResults : Results) : Results :=
  newResults.foldl (fun acc iv =>
    match dlookup acc iv.1 with
    | none => dinsert iv.1 iv.2 acc
    | some stored => dinsert iv.1 (mergeResult stored iv.2) acc) results

lemma dlookup_dinsert_self {α β : Type} [DecidableEq α] (d : Dict α β) (k : α) (v : β) :
    dlookup (dinsert k v d) k = some v := by
  induction d with
  | nil => simp [dinsert, dlookup]
  | cons kv rest ih =>
    by_cases h : kv.1 = k
    · simp [dinsert, dlookup, h]
    · simp [dinsert, dlookup, h, ih]

lemma dlookup_dinsert_ne {α β : Type} [DecidableEq α] (d : Dict α β) (k k' : α) (v : β)
    (h : k ≠ k') : dlookup (dinsert k v d) k' = dlookup d k' := by
  induction d with
  | nil => simp [dinsert, dlookup, h]
  | cons kv rest ih =>
    by_cases hk : kv.1 = k
    · simp [dinsert, dlookup, hk, h]
    · simp [dinsert, dlookup, hk, ih]

lemma dlookup_eq_none_of_not_mem_keys {α β : Type} [DecidableEq α] (d : Dict α β)
    (k : α) (hk : k ∉ dkeys d) : dlookup d k = none := by
  induction d with
  | nil => rfl
  | cons kv rest ih =>
    have h1 : kv.1 ≠ k := fun e => hk (by simp [dkeys, e])
    simp only [dlookup, if_neg h1]
    exact ih fun hm => hk (by simp [dkeys] at hm ⊢; exact Or.inr hm)

/-- Choice of the first defined option (the merged value of one date: the new
result when it covers the date, the stored one otherwise). -/
def firstSome {β : Type} (a b : Option β) : Option β :=
  match a with
  | some v => some v
  | none => b

/-- Lookup after assigning every pair of a duplicate-free dict new into old:
keys of new win, all other keys keep their old value. -/
lemma dlookup_foldl_dinsert {α β : Type} [DecidableEq α] (new : Dict α β)
    (hnd : (dkeys new).Nodup) (old : Dict α β) (k : α) :
    dlookup (new.foldl (fun pl dv => dinsert dv.1 dv.2 pl) old) k =
      firstSome (dlookup new k) (dlookup old k) := by
  induction new generalizing old with
  | nil => simp [dlookup, firstSome]
  | cons kv rest ih =>
    have hnd2 : (dkeys (kv :: rest)).Nodup := by simpa [dkeys] using hnd
    have hnd' : (dkeys rest).Nodup := (List.nodup_cons.mp hnd2).2
    have hk : kv.1 ∉ dkeys rest := (List.nodup_cons.mp hnd2).1
    by_cases h : kv.1 = k
    · have hrest : dlookup rest k = none :=
        dlookup_eq_none_of_not_mem_keys rest k (h ▸ hk)
      simp only [List.foldl_cons, dlookup, if_pos h, firstSome]
      rw [ih hnd' (dinsert kv.1 kv.2 old), hrest, ← h]
      exact dlookup_dinsert_self old kv.1 kv.2
    · simp only [List.foldl_cons, dlookup, if_neg h]
      rw [ih hnd' (dinsert kv.1 kv.2 old)]
      cases hr : dlookup rest k
      · simp [firstSome, dlookup_dinsert_ne old kv.1 k kv.2 h]
      · simp [firstSome]

/-! ## C2: merge semantics of the results dictionary -/

/-- C2: merging the new result r for hut i into the results dictionary inserts
r as-is when no result is stored for i; otherwise the stored entry becomes
the merge, whose error, warning and request_time are taken from r and whose
places dict maps every date covered by r to the new value and every other
date to its previous stored value.  The places dict of a retrieved result has
unique date keys (it is a Python dict), hence the Nodup hypothesis. -/
theorem updateResults_merge_spec (results : Results) (i : HutId) (r stored : HutResult)
    (d : Date) (hnd : (dkeys r.places).Nodup) :
    (dlookup results i = none →
      dlookup (updateResultsDictionary results [(i, r)]) i = some r)
    ∧ (dlookup results i = some stored →
      dlookup (updateResultsDictionary results [(i, r)]) i = some (mergeResult stored r)
      ∧ (mergeResult stored r).error = r.error
      ∧ (mergeResult stored r).warning = r.warning
      ∧ (mergeResult stored r).requestTime = r.requestTime
      ∧ dlookup (mergeResult stored r).places d =
          firstSome (dlookup r.places d) (dlookup stored.places d)) := by
  constructor
  · intro h
    simp only [updateResultsDictionary, List.foldl_cons, List.foldl_nil, h]
    exact dlookup_dinsert_self results i r
  · intro h
    refine ⟨?_, rfl, rfl, rfl, ?_⟩
    · simp only [updateResultsDictionary, List.foldl_cons, List.foldl_nil, h]
      exact dlookup_dinsert_self results i (mergeResult stored r)
    · simpa [mergeResult] using dlookup_foldl_dinsert r.places hnd stored.places d

/-- Result covering dates 102 and 103, used to merge into res1 (dates 100
to 102): date 102 is overwritten, dates 100 and 101 stay unchanged. -/
def r3 : HutResult :=
  { error := none, warning := none, requestTime := 5,
    requestedDates := [102, 103],
    places := [(102, [("dormitory", 9)]), (103, [("dormitory", 2)])] }

/-- Witness for C2: merging r3 (dates 102 and 103) into res1 (dates 100 to
102) keeps date 100 unchanged and overwrites date 102 with the new value. -/
theorem updateResults_merge_spec_witness :
    dlookup res1 1 = some r1
    ∧ dlookup (updateResultsDictionary res1 [(1, r3)]) 1 = some (mergeResult r1 r3)
    ∧ dlookup (mergeResult r1 r3).places 100 = some [("dormitory", 5)]
    ∧ dlookup (mergeResult r1 r3).places 102 = some [("dormitory", 9)] :=
  ⟨rfl,
   ((updateResults_merge_spec res1 1 r3 r1 100 (by decide)).2 rfl).1,
   (((updateResults_merge_spec res1 1 r3 r1 100 (by decide)).2 rfl).2.2.2.2).trans (by decide),
   (((updateResults_merge_spec res1 1 r3 r1 102 (by decide)).2 rfl).2.2.2.2).trans (by decide)⟩

/-! ## Retrieved-data filters (model.py) -/

/-- Embedding of HutsModel._filter_by_response: a hut is dropped only when a
stored result exists and carries an error. -/
def filterByResponse (results : Results) (l : List HutId) : List HutId :=
  l.filter fun index =>
    match dlookup results index with
    | none => true
    | some r => r.error.isNone

/-- Embedding of HutsModel._filter_by_open: a hut is dropped only when a
stored result exists, has no error, covers all requested dates and the hut
is not open on them. -/
def filterByOpen (results : Results) (dates : List Date) (l : List HutId) : List HutId :=
  l.filter fun index =>
    match dlookup results index with
    | none => true
    | some r =>
      let response := r.error.isNone
      let dataRequested := dates.all fun d => r.requestedDates.contains d
      let isOpen := checkOpen results index dates
      ! (response && dataRequested && ! isOpen)

/-- Embedding of HutsModel._filter_by_available: bounds default to 0 and 1000,
a hut is kept when its available-places value lies inside the bounds. -/
def filterByAvailable (results : Results) (minP maxP : Option ℚ) (dates : List Date)
    (l : List HutId) : List HutId :=
  let lo := minP.getD 0
  let hi := maxP.getD 1000
  l.filter fun index =>
    decide (lo ≤ (availablePlaces results index dates : ℚ)
            ∧ (availablePlaces results index dates : ℚ) ≤ hi)

/-- Embedding of HutsModel._filter_by_room: bounds default to 0 and 1000, the
per-room value defaults to 0 when the room type is absent from the per-room
dict, a hut is kept when the value lies inside the bounds. -/
def filterByRoom (results : Results) (room : Room) (minP maxP : Option ℚ)
    (dates : List Date) (l : List HutId) : List HutId :=
  let lo := minP.getD 0
  let hi := maxP.getD 1000
  l.filter fun index =>
    let v : Int := (dlookup (availablePlacesForRoom results index dates) room).getD 0
    decide (lo ≤ (v : ℚ) ∧ (v : ℚ) ≤ hi)

/-! ## C3: the available filter drops huts that were never requested

The docstrings of _filter_by_available and _filter_by_room state that huts
for which no web request has been performed are not filtered out, and the
spec repeats it; but for a positive lower bound the code removes such huts,
because their available-places value defaults to 0. -/

/-- C3: failing input for the claim.  Hut 1 has no stored result at all, yet
the available filter with bounds 1 to 10 removes it from the list, and the
room filter does the same; the response filter keeps it as documented. -/
theorem filterByAvailable_drops_no_result_hut :
    dlookup ([] : Results) 1 = none
    ∧ filterByAvailable [] (some 1) (some 10) [100] [1] = []
    ∧ filterByRoom [] "dormitory" (some 1) (some 10) [100] [1] = []
    ∧ filterByResponse [] [1] = [1] :=
  ⟨rfl, by decide, by decide, by decide⟩

/-! ## C5: sort keys for available and room-type sorting -/

/-- Sort key of HutsModel._sort_by_available (the f_key closure): the plain
available-places value. -/
def availSortKey (results : Results) (dates : List Date) (index : HutId) : Int :=
  availablePlaces results index dates

/-- Sort key of HutsModel._sort_by_room (the f_key closure): the per-room
value, with -1 when the room type is absent from the per-room dict. -/
def roomSortKey (results : Results) (room : Room) (dates : List Date) (index : HutId) : Int :=
  match dlookup (availablePlacesForRoom results index dates) room with
  | some v => v
  | none => -1

/-- Counterexample to C5 as stated: a hut with no stored result sorts under
the available key with value 0, not -1, so it ties with a zero-availability
hut instead of ranking below it. -/
theorem availSortKey_missing_data_is_zero :
    dlookup ([] : Results) 1 = none
    ∧ availSortKey ([] : Results) [100] 1 = 0
    ∧ availSortKey ([] : Results) [100] 1 ≠ -1 :=
  ⟨rfl, by decide, by decide⟩

/-- C5 amended: under missing data (no stored result, a stored error, or a
requested date not covered) every room-type sort key is -1, ranking such huts
below value-0 huts, while the available sort key is 0. -/
theorem sortKey_missing_data (results : Results) (i : HutId) (dates : List Date)
    (room : Room) (r : HutResult)
    (h : dlookup results i = none
         ∨ (dlookup results i = some r
            ∧ (r.error.isSome = true ∨ ∃ d ∈ dates, dlookup r.places d = none))) :
    roomSortKey results room dates i = -1 ∧ availSortKey results dates i = 0 := by
  have hroom : availablePlacesForRoom results i dates = [] := by
    rcases h with h | ⟨h, he | hex⟩
    · simp [availablePlacesForRoom, h]
    · simp [availablePlacesForRoom, h, he]
    · have hall : ¬ ((dates.all fun d => (dlookup r.places d).isSome) = true) := by
        simp only [List.all_eq_true, not_forall]
        rcases hex with ⟨d, hd, hnone⟩
        exact ⟨d, hd, by simp [hnone]⟩
      by_cases he : r.error.isSome <;> simp [availablePlacesForRoom, h, he, hall]
  have havail : availablePlaces results i dates = 0 := by
    rcases h with h | ⟨h, he | hex⟩
    · simp [availablePlaces, h]
    · simp [availablePlaces, h, he]
    · have hall : ¬ ((dates.all fun d => (dlookup r.places d).isSome) = true) := by
        simp only [List.all_eq_true, not_forall]
        rcases hex with ⟨d, hd, hnone⟩
        exact ⟨d, hd, by simp [hnone]⟩
      by_cases he : r.error.isSome <;> simp [availablePlaces, h, he, hall]
  exact ⟨by simp [roomSortKey, hroom, dlookup], havail⟩

/-- Result whose retrieval failed with an error message. -/
def rerr : HutResult :=
  { error := some "timeout", warning := none, requestTime := 0,
    requestedDates := [], places := [] }

/-- Results dictionary holding the failed result rerr for hut 2. -/
def resErr : Results := [(2, rerr)]

/-- Witness for the amended C5: hut 2 whose stored result carries an error
gets room sort key -1 and available sort key 0. -/
theorem sortKey_missing_data_witness :
    (dlookup resErr 2 = some rerr ∧ rerr.error.isSome = true)
    ∧ roomSortKey resErr "dormitory" [100] 2 = -1
    ∧ availSortKey resErr [100] 2 = 0 :=
  ⟨⟨rfl, rfl⟩,
   sortKey_missing_data resErr 2 [100] "dormitory" rerr (Or.inr ⟨rfl, Or.inl rfl⟩)⟩

/-! ## Tile cache of the map engine (map_tools._TilesCluster) -/

/-- Key of a cached tile: zoom level and tile numbers (zoom, x, y). -/
abbrev TKey := Int × Int × Int

/-- Embedding of _TilesCluster.configure_cache: caching is enabled exactly
when the configured limit exists and is positive. -/
def configureCaching (tilesCache : Option Int) : Bool :=
  match tilesCache with
  | none => false
  | some v => v > 0

/-- Tile loop of _TilesCluster._load_cluster over the required tile keys: a
key already cached is a hit (the tile is taken from the cache, order is not
touched), a missing key is loaded from disk and, when caching is enabled,
assigned into the ordered cache, which appends it at the end.  The tile
images carry no information for the cache claims, so the cache is embedded
as its key list in insertion order. -/
def insertTiles (caching : Bool) (cache : List TKey) (keys : List TKey) : List TKey :=
  keys.foldl (fun c k => if c.contains k then c else if caching then c ++ [k] else c) cache

/-- Purge step at the end of _load_cluster: when caching is enabled and the
cache holds more entries than the limit, popitem(last := false) runs
limit / 2 times, removing the oldest entries in insertion order. -/
def purgeCache (caching : Bool) (limit : Nat) (cache : List TKey) : List TKey :=
  if caching ∧ cache.length > limit then cache.drop (limit / 2) else cache

/-- Cache effect of one _load_cluster call: the tile loop followed by the
purge step. -/
def loadClusterCache (caching : Bool) (limit : Nat) (cache keys : List TKey) : List TKey :=
  purgeCache caching limit (insertTiles caching cache keys)

/-! ## C4: eviction of the tile cache -/

/-- Counterexample to C4 as stated: with capacity 2, a single cluster load
that inserts 4 distinct tiles ends with 3 cached entries, because the purge
removes only capacity / 2 = 1 entry; more than capacity entries remain. -/
theorem loadCluster_exceeds_capacity :
    configureCaching (some 2) = true
    ∧ loadClusterCache true 2 [] [(6, 0, 0), (6, 0, 1), (6, 1, 0), (6, 1, 1)] =
        [(6, 0, 1), (6, 1, 0), (6, 1, 1)]
    ∧ ¬ ((loadClusterCache true 2 [] [(6, 0, 0), (6, 0, 1), (6, 1, 0), (6, 1, 1)]).length ≤ 2) :=
  ⟨rfl, by decide, by decide⟩

/-- C4 amended: when caching is enabled with capacity limit and a cluster
load leaves more than limit tiles cached, the purge drops exactly the
limit / 2 oldest entries in insertion order (the result is the suffix of the
insertion-ordered cache), so the cache shrinks by limit / 2, and since
limit / 2 is at most half of the cache size the most-recently-inserted half
of the entries is retained; the result can still exceed the capacity. -/
theorem loadCluster_evicts_oldest_half (limit : Nat) (cache keys : List TKey)
    (h : (insertTiles true cache keys).length > limit) :
    loadClusterCache true limit cache keys = (insertTiles true cache keys).drop (limit / 2)
    ∧ (loadClusterCache true limit cache keys).length
        = (insertTiles true cache keys).length - limit / 2
    ∧ limit / 2 ≤ (insertTiles true cache keys).length / 2 := by
  have h1 : loadClusterCache true limit cache keys =
      (insertTiles true cache keys).drop (limit / 2) := by
    simp [loadClusterCache, purgeCache, h]
  refine ⟨h1, ?_, ?_⟩
  · rw [h1, List.length_drop]
  · exact Nat.div_le_div_right (le_of_lt h)

/-- Witness for the amended C4 at the counterexample input: 4 tiles inserted
against capacity 2, one entry evicted, suffix of 3 entries retained. -/
theorem loadCluster_evicts_oldest_half_witness :
    (insertTiles true [] [(6, 0, 0), (6, 0, 1), (6, 1, 0), (6, 1, 1)]).length > 2
    ∧ loadClusterCache true 2 [] [(6, 0, 0), (6, 0, 1), (6, 1, 0), (6, 1, 1)] =
        (insertTiles true [] [(6, 0, 0), (6, 0, 1), (6, 1, 0), (6, 1, 1)]).drop (2 / 2) :=
  ⟨by decide,
   (loadCluster_evicts_oldest_half 2 [] [(6, 0, 0), (6, 0, 1), (6, 1, 0), (6, 1, 1)]
      (by decide)).1⟩

/-! ## Hut catalog loading (model._load_huts_dictionary) -/

/-- Record of one hut of the catalog file, as stored in the huts dictionary
by _load_huts_dictionary. -/
structure Hut where
  name : String
  country : String
  region : String
  mountainRange : String
  selfCatering : Bool
  lat : ℚ
  lon : ℚ
  height : ℚ
  langCode : String
  deriving DecidableEq

/-- Value of a decimal digit character. -/
def digitVal (c : Char) : Option Nat :=
  if c = '0' then some 0 else if c = '1' then some 1 else if c = '2' then some 2
  else if c = '3' then some 3 else if c = '4' then some 4 else if c = '5' then some 5
  else if c = '6' then some 6 else if c = '7' then some 7 else if c = '8' then some 8
  else if c = '9' then some 9 else none

/-- Parse of a non-empty digit string into a Nat. -/
def parseDigits (l : List Char) : Option Nat :=
  if l.isEmpty then none
  else l.foldl (fun acc c =>
    match acc, digitVal c with
    | some n, some d => some (10 * n + d)
    | _, _ => none) (some 0)

/-- Embedding of the Python int conversion for the id field, on the signed
decimal forms appearing in the catalog file. -/
def parseInt (s : String) : Option Int :=
  match s.data with
  | [] => none
  | c :: rest =>
    if c = '-' then (parseDigits rest).map fun n => -(n : Int)
    else (parseDigits (c :: rest)).map fun n => (n : Int)

/-- Embedding of the Python float conversion for lat, lon, height, on the
plain signed decimal forms appearing in the catalog file (optional sign,
digits, optional dot and fraction digits). -/
def parseDecimal (s : String) : Option ℚ :=
  let core : List Char → Option ℚ := fun l =>
    let intPart := l.takeWhile fun c => c ≠ '.'
    match l.dropWhile fun c => c ≠ '.' with
    | [] => (parseDigits intPart).map fun n => (n : ℚ)
    | _ :: frac =>
      match parseDigits intPart, parseDigits frac with
      | some n, some f => some ((n : ℚ) + (f : ℚ) / (10 : ℚ) ^ frac.length)
      | _, _ => none
  match s.data with
  | [] => none
  | c :: rest => if c = '-' then (core rest).map Neg.neg else core (c :: rest)

/-- Lower-casing of one ASCII letter (the Python str.lower on the catalog
field values, which are ASCII). -/
def lowerChar (c : Char) : Char :=
  if c = 'A' then 'a' else if c = 'B' then 'b' else if c = 'C' then 'c'
  else if c = 'D' then 'd' else if c = 'E' then 'e' else if c = 'F' then 'f'
  else if c = 'G' then 'g' else if c = 'H' then 'h' else if c = 'I' then 'i'
  else if c = 'J' then 'j' else if c = 'K' then 'k' else if c = 'L' then 'l'
  else if c = 'M' then 'm' else if c = 'N' then 'n' else if c = 'O' then 'o'
  else if c = 'P' then 'p' else if c = 'Q' then 'q' else if c = 'R' then 'r'
  else if c = 'S' then 's' else if c = 'T' then 't' else if c = 'U' then 'u'
  else if c = 'V' then 'v' else if c = 'W' then 'w' else if c = 'X' then 'x'
  else if c = 'Y' then 'y' else if c = 'Z' then 'z' else c

/-- Lower-casing of an ASCII string. -/
def strLower (s : String) : String := String.mk (s.data.map lowerChar)

/-- Embedding of distutils.util.strtobool: the lower-cased value must be one
of the accepted true or false spellings, anything else raises ValueError. -/
def strtobool (s : String) : Option Bool :=
  let v := strLower s
  if v = "y" ∨ v = "yes" ∨ v = "t" ∨ v = "true" ∨ v = "on" ∨ v = "1" then some true
  else if v = "n" ∨ v = "no" ∨ v = "f" ∨ v = "false" ∨ v = "off" ∨ v = "0" then some false
  else none

/-- Processing of one catalog line by _load_huts_dictionary: the whole load
crashes (none) when the line has fewer than 2 fields (IndexError on line[1]
is not caught); a line whose second field equals the SKIP code is ignored; a
line that does not unpack into 10 fields or whose conversions fail raises
ValueError, which is recorded as an error (counted here) and skipped; any
other line stores the hut under its integer id. -/
def processLine (st : Option (Dict Int Hut × Nat)) (line : List String) :
    Option (Dict Int Hut × Nat) :=
  st.bind fun de =>
    match line with
    | [] => none
    | [_] => none
    | _ :: nameField :: _ =>
      if nameField = "SKIP" then some de
      else
        match line with
        | [idNo, nm, country, region, mountainRange, selfCatering, lat, lon, height, langCode] =>
          match parseInt idNo, strtobool selfCatering, parseDecimal lat,
                parseDecimal lon, parseDecimal height with
          | some idv, some scv, some lav, some lov, some hev =>
            some (dinsert idv
              ⟨nm, country, region, mountainRange, scv, lav, lov, hev, langCode⟩ de.1, de.2)
          | _, _, _, _, _ => some (de.1, de.2 + 1)
        | _ => some (de.1, de.2 + 1)

/-- Embedding of HutsModel._load_huts_dictionary over the parsed lines of the
tab-separated catalog file: starts from an empty dictionary and an empty
error list (embedded as an error count) and processes the lines in order. -/
def loadHutsDictionary (lines : List (List String)) : Option (Dict Int Hut × Nat) :=
  lines.foldl processLine (some ([], 0))

/-! ## C9: the SKIP sentinel is matched against the name field -/

/-- Counterexample to C9 as stated: a well-formed line whose country code is
SKIP but whose name field is not is NOT ignored; the hut is added to the
catalog, because the code compares the second field (the name), not the
country code, with the sentinel. -/
theorem loadHuts_country_skip_added :
    loadHutsDictionary [["7", "Rifugio", "SKIP", "reg", "mr", "1", "46", "11", "2000", "it"]] =
      some ([(7, ⟨"Rifugio", "SKIP", "reg", "mr", true, 46, 11, 2000, "it"⟩)], 0) := by
  decide

/-- C9 amended: a line whose second field (the hut name) equals SKIP is
ignored without touching the dictionary or the errors, and every other
well-formed 10-field line whose conversions succeed is added under its id. -/
theorem loadHuts_skip_spec (dict : Dict Int Hut) (errs : Nat) (line rest : List String)
    (idNo nm country region mr sc lat lon hgt lc a : String) (idv : Int) (scv : Bool)
    (lav lov hev : ℚ) :
    (line = a :: "SKIP" :: rest → processLine (some (dict, errs)) line = some (dict, errs))
    ∧ (nm ≠ "SKIP" → parseInt idNo = some idv → strtobool sc = some scv →
       parseDecimal lat = some lav → parseDecimal lon = some lov →
       parseDecimal hgt = some hev →
       processLine (some (dict, errs)) [idNo, nm, country, region, mr, sc, lat, lon, hgt, lc] =
         some (dinsert idv ⟨nm, country, region, mr, scv, lav, lov, hev, lc⟩ dict, errs)) := by
  constructor
  · intro h
    subst h
    simp [processLine]
  · intro hnm h1 h2 h3 h4 h5
    simp [processLine, hnm, h1, h2, h3, h4, h5]

/-- Witness for the amended C9: a line named SKIP is dropped and a regular
line is stored. -/
theorem loadHuts_skip_spec_witness :
    ((["3", "SKIP", "CH", "reg", "mr", "1", "46", "7", "1500", "de"] : List String)
       = "3" :: "SKIP" :: ["CH", "reg", "mr", "1", "46", "7", "1500", "de"]
     ∧ processLine (some ([], 0)) ["3", "SKIP", "CH", "reg", "mr", "1", "46", "7", "1500", "de"]
       = some ([], 0))
    ∧ processLine (some ([], 0)) ["4", "Cabane", "CH", "reg", "mr", "0", "46", "7", "1500", "fr"]
       = some (dinsert 4 ⟨"Cabane", "CH", "reg", "mr", false, 46, 7, 1500, "fr"⟩ [], 0) :=
  ⟨⟨rfl,
    (loadHuts_skip_spec [] 0 ["3", "SKIP", "CH", "reg", "mr", "1", "46", "7", "1500", "de"]
      ["CH", "reg", "mr", "1", "46", "7", "1500", "de"]
      "3" "SKIP" "CH" "reg" "mr" "1" "46" "7" "1500" "de" "3" 3 true 46 7 1500).1 rfl⟩,
   (loadHuts_skip_spec [] 0 [] [] "4" "Cabane" "CH" "reg" "mr" "0" "46" "7" "1500" "fr" ""
      4 false 46 7 1500).2 (by decide) (by decide) (by decide) (by decide) (by decide)
      (by decide)⟩

/-! ## Filtering and sorting pipeline of the view model (model.py)

The spherical distance function (src/spherical_earth.py, float trigonometry)
and the localized i18n label tables are pure inputs of the pipeline; they are
abstracted as the fields of Env.  The builtin sorted is embedded as a stable
insertion sort, which computes the same list as Python timsort for the total
key orders used; reverse sorting flips the comparison and, like Python, keeps
the original relative order of equal keys. -/

/-- Environment of the model: distance function between two locations and the
case-folded localized labels used by the region and mountain-range sorts. -/
structure Env where
  dist : ℚ → ℚ → ℚ → ℚ → ℚ
  regionLabel : String → String
  mountainLabel : String → String

/-- Room types of the model (model.ROOM_TYPES). -/
def roomTypes : List String := ["single", "double", "shared", "dormitory"]

/-- Parameters of one filter, as passed in the Python parameters dict
(value for string and boolean filters, min and max for interval filters). -/
structure FilterParams where
  value : Option String := none
  boolValue : Option Bool := none
  minV : Option ℚ := none
  maxV : Option ℚ := none
  deriving DecidableEq

instance : Inhabited Hut := ⟨⟨"", "", "", "", false, 0, 0, 0, ""⟩⟩

/-- Access huts_dictionary[index].  The model only looks up indexes taken
from the catalog, for which the lookup cannot fail; a foreign index would
raise KeyError in Python and yields the default hut here. -/
def hutGet (huts : Dict HutId Hut) (i : HutId) : Hut := (dlookup huts i).getD default

/-- Embedding of HutsModel._filter_by_country. -/
def filterByCountry (huts : Dict HutId Hut) (c : String) (l : List HutId) : List HutId :=
  l.filter fun i => decide ((hutGet huts i).country = c)

/-- Embedding of HutsModel._filter_by_region. -/
def filterByRegion (huts : Dict HutId Hut) (rg : String) (l : List HutId) : List HutId :=
  l.filter fun i => decide ((hutGet huts i).region = rg)

/-- Embedding of HutsModel._filter_by_mountain_range. -/
def filterByMountainRange (huts : Dict HutId Hut) (m : String) (l : List HutId) : List HutId :=
  l.filter fun i => decide ((hutGet huts i).mountainRange = m)

/-- Embedding of HutsModel._filter_by_height (bounds default to 0 and 10000). -/
def filterByHeight (huts : Dict HutId Hut) (minP maxP : Option ℚ) (l : List HutId) :
    List HutId :=
  let lo := minP.getD 0
  let hi := maxP.getD 10000
  l.filter fun i => decide (lo ≤ (hutGet huts i).height ∧ (hutGet huts i).height ≤ hi)

/-- Embedding of HutsModel._filter_by_self_catering. -/
def filterBySelfCatering (huts : Dict HutId Hut) (b : Bool) (l : List HutId) : List HutId :=
  l.filter fun i => (hutGet huts i).selfCatering = b

/-- Embedding of HutsModel._filter_by_distance (bounds in km default to 0 and
20000 and are scaled by 1000 before comparing with the distance in meters). -/
def filterByDistance (env : Env) (huts : Dict HutId Hut) (minP maxP : Option ℚ)
    (latRef lonRef : ℚ) (l : List HutId) : List HutId :=
  let lo := minP.getD 0
  let hi := maxP.getD 20000
  l.filter fun i =>
    decide (lo * 1000 ≤ env.dist (hutGet huts i).lat (hutGet huts i).lon latRef lonRef
            ∧ env.dist (hutGet huts i).lat (hutGet huts i).lon latRef lonRef ≤ hi * 1000)

/-- Embedding of HutsModel._filter_by: dispatch over the filter key; an
unknown key leaves the list unchanged. -/
def filterBy (env : Env) (huts : Dict HutId Hut) (results : Results) (refLoc : ℚ × ℚ)
    (dates : List Date) (key : String) (p : FilterParams) (l : List HutId) : List HutId :=
  if key = "country" then filterByCountry huts (p.value.getD "") l
  else if key = "region" then filterByRegion huts (p.value.getD "") l
  else if key = "mountain_range" then filterByMountainRange huts (p.value.getD "") l
  else if key = "height" then filterByHeight huts p.minV p.maxV l
  else if key = "self_catering" then filterBySelfCatering huts (p.boolValue.getD false) l
  else if key = "distance" then filterByDistance env huts p.minV p.maxV refLoc.1 refLoc.2 l
  else if key = "response" then filterByResponse results l
  else if key = "open" then filterByOpen results dates l
  else if key = "available" then filterByAvailable results p.minV p.maxV dates l
  else if roomTypes.contains key then filterByRoom results key p.minV p.maxV dates l
  else l

/-- Embedding of HutsModel._apply_all_filters: the active filters are applied
in dictionary (insertion) order. -/
def applyAllFilters (env : Env) (huts : Dict HutId Hut) (results : Results)
    (refLoc : ℚ × ℚ) (dates : List Date) (filters : Dict String FilterParams)
    (l : List HutId) : List HutId :=
  filters.foldl (fun acc kp => filterBy env huts results refLoc dates kp.1 kp.2 acc) l

/-- Stable insertion of an element into a sorted list: the new element goes
after every existing element that compares less-or-equal to it. -/
def insertStable {α : Type} (le : α → α → Bool) (a : α) : List α → List α
  | [] => [a]
  | b :: bs => if le b a then b :: insertStable le a bs else a :: b :: bs

/-- Stable sort by a boolean comparison, the embedding of the Python builtin
sorted (timsort): both are stable and agree on total preorders. -/
def stableSort {α : Type} (le : α → α → Bool) : List α → List α
  | [] => []
  | a :: as => insertStable le a (stableSort le as)

/-- Embedding of sorted(l, key, reverse): reverse sorting flips the
comparison, which keeps the original order of equal keys like Python. -/
def pySorted {κ : Type} (key : HutId → κ) (le : κ → κ → Bool) (ascending : Bool)
    (l : List HutId) : List HutId :=
  if ascending then stableSort (fun a b => le (key a) (key b)) l
  else stableSort (fun a b => le (key b) (key a)) l

/-- Embedding of HutsModel._sort_by: dispatch over the sort key; key None or
an unknown key returns the list unchanged (a copy in Python). -/
def sortBy (env : Env) (huts : Dict HutId Hut) (results : Results) (refLoc : ℚ × ℚ)
    (dates : List Date) (key : Option String) (ascending : Bool) (l : List HutId) :
    List HutId :=
  match key with
  | none => l
  | some k =>
    if k = "name" then
      pySorted (fun i => (hutGet huts i).name) (fun a b => decide (a ≤ b)) ascending l
    else if k = "country" then
      pySorted (fun i => (hutGet huts i).country) (fun a b => decide (a ≤ b)) ascending l
    else if k = "region" then
      pySorted (fun i => env.regionLabel (hutGet huts i).region)
        (fun a b => decide (a ≤ b)) ascending l
    else if k = "mountain_range" then
      pySorted (fun i => env.mountainLabel (hutGet huts i).mountainRange)
        (fun a b => decide (a ≤ b)) ascending l
    else if k = "height" then
      pySorted (fun i => (hutGet huts i).height) (fun a b => decide (a ≤ b)) ascending l
    else if k = "self_catering" then
      pySorted (fun i => (hutGet huts i).selfCatering) (fun a b => decide (a ≤ b)) ascending l
    else if k = "distance" then
      pySorted (fun i => env.dist (hutGet huts i).lat (hutGet huts i).lon refLoc.1 refLoc.2)
        (fun a b => decide (a ≤ b)) ascending l
    else if k = "available" then
      pySorted (availSortKey results dates) (fun a b => decide (a ≤ b)) ascending l
    else if roomTypes.contains k then
      pySorted (roomSortKey results k dates) (fun a b => decide (a ≤ b)) ascending l
    else l

/-! ## State of the view model (HutsModel) -/

/-- State of HutsModel: the fields touched by the claims (the retrieval
bookkeeping flags and the error list are not part of any claim). -/
structure ModelState where
  hutsDictionary : Dict HutId Hut
  resultsDictionary : Results
  displayed : List HutId
  allSelected : List HutId
  selected : List HutId
  filterDisplayedKeys : Dict String FilterParams
  filterSelectedKeys : Dict String FilterParams
  sortDisplayedKey : Option String
  sortDisplayedAscending : Bool
  sortSelectedKey : Option String
  sortSelectedAscending : Bool
  requestDate : Date
  numberDays : Nat
  referenceLocation : ℚ × ℚ

/-- Embedding of the request_dates property: number_days consecutive dates
from the request date. -/
def requestDates (s : ModelState) : List Date :=
  (List.range s.numberDays).map fun i => s.requestDate + i

/-- Embedding of HutsModel.sort_displayed (the state effect). -/
def sortDisplayed (env : Env) (s : ModelState) : ModelState :=
  { s with displayed := (sortBy env s.hutsDictionary s.resultsDictionary
      s.referenceLocation (requestDates s) s.sortDisplayedKey s.sortDisplayedAscending
      s.displayed) }

/-- Embedding of HutsModel.sort_selected (the state effect). -/
def sortSelected (env : Env) (s : ModelState) : ModelState :=
  { s with selected := (sortBy env s.hutsDictionary s.resultsDictionary
      s.referenceLocation (requestDates s) s.sortSelectedKey s.sortSelectedAscending
      s.selected) }

/-- Embedding of HutsModel._display_all: the displayed list is reset to all
catalog keys. -/
def displayAll (s : ModelState) : ModelState :=
  { s with displayed := dkeys s.hutsDictionary }

/-- Embedding of HutsModel._filter_and_sort_displayed: reset to all huts,
re-apply every active filter in dictionary order, re-apply the active sort. -/
def filterAndSortDisplayed (env : Env) (s : ModelState) : ModelState :=
  let s1 := displayAll s
  let s2 := { s1 with displayed := (applyAllFilters env s1.hutsDictionary
      s1.resultsDictionary s1.referenceLocation (requestDates s1)
      s1.filterDisplayedKeys s1.displayed) }
  sortDisplayed env s2

/-- Embedding of HutsModel._filter_and_sort_selected. -/
def filterAndSortSelected (env : Env) (s : ModelState) : ModelState :=
  let s1 := { s with selected := (applyAllFilters env s.hutsDictionary
      s.resultsDictionary s.referenceLocation (requestDates s)
      s.filterSelectedKeys s.allSelected) }
  sortSelected env s1

/-- Embedding of HutsModel.filter_displayed_by: a key that is not active
filters the current displayed list and becomes active; a key that is already
active is removed and the displayed list is recomputed from the unfiltered
base. -/
def filterDisplayedBy (env : Env) (key : String) (p : FilterParams) (s : ModelState) :
    ModelState :=
  if (dlookup s.filterDisplayedKeys key).isSome then
    filterAndSortDisplayed env { s with filterDisplayedKeys := dpop key s.filterDisplayedKeys }
  else
    { s with
      displayed := (filterBy env s.hutsDictionary s.resultsDictionary s.referenceLocation
        (requestDates s) key p s.displayed),
      filterDisplayedKeys := dinsert key p s.filterDisplayedKeys }

/-- Embedding of HutsModel.filter_selected_by. -/
def filterSelectedBy (env : Env) (key : String) (p : FilterParams) (s : ModelState) :
    ModelState :=
  if (dlookup s.filterSelectedKeys key).isSome then
    filterAndSortSelected env { s with filterSelectedKeys := dpop key s.filterSelectedKeys }
  else
    { s with
      selected := (filterBy env s.hutsDictionary s.resultsDictionary s.referenceLocation
        (requestDates s) key p s.selected),
      filterSelectedKeys := dinsert key p s.filterSelectedKeys }

/-- Embedding of HutsModel.update_dates: the new dates are stored and both
lists are re-sorted, but the active filters are NOT re-applied. -/
def updateDates (env : Env) (d : Date) (n : Nat) (s : ModelState) : ModelState :=
  sortSelected env (sortDisplayed env { s with requestDate := d, numberDays := n })

/-- Embedding of HutsModel.set_reference_location: the location is stored only
when strictly inside the valid ranges, then both lists are re-sorted and the
view-update data is returned (displayed copy, get_selected pair, reference
location copy; the huts_data table is a rendering of the same state and is
not part of any claim). -/
def setReferenceLocation (env : Env) (latRef lonRef : ℚ) (s : ModelState) :
    ModelState × (List HutId × (List HutId × List HutId) × (ℚ × ℚ)) :=
  let s1 := if -90 < latRef ∧ latRef < 90 ∧ -180 < lonRef ∧ lonRef < 180 then
      { s with referenceLocation := (latRef, lonRef) }
    else s
  let s2 := sortSelected env (sortDisplayed env s1)
  (s2, (s2.displayed, (s2.selected, s2.allSelected), s2.referenceLocation))

/-! ## C6: toggling a filter key twice -/

/-- Canonical displayed list of a state: the unfiltered base (all catalog
keys) passed through every active displayed filter in dictionary order and
then through the active displayed sort.  This is what
_filter_and_sort_displayed computes. -/
def canonicalDisplayed (env : Env) (s : ModelState) : List HutId :=
  sortBy env s.hutsDictionary s.resultsDictionary s.referenceLocation (requestDates s)
    s.sortDisplayedKey s.sortDisplayedAscending
    (applyAllFilters env s.hutsDictionary s.resultsDictionary s.referenceLocation
      (requestDates s) s.filterDisplayedKeys (dkeys s.hutsDictionary))

/-- Canonical selected list of a state: the all-selected base passed through
every active selected filter in dictionary order and the active selected
sort.  This is what _filter_and_sort_selected computes. -/
def canonicalSelected (env : Env) (s : ModelState) : List HutId :=
  sortBy env s.hutsDictionary s.resultsDictionary s.referenceLocation (requestDates s)
    s.sortSelectedKey s.sortSelectedAscending
    (applyAllFilters env s.hutsDictionary s.resultsDictionary s.referenceLocation
      (requestDates s) s.filterSelectedKeys s.allSelected)

lemma dpop_dinsert {α β : Type} [DecidableEq α] (d : Dict α β) (k : α) (v : β)
    (h : dlookup d k = none) : dpop k (dinsert k v d) = d := by
  induction d with
  | nil => simp [dinsert, dpop]
  | cons kv rest ih =>
    obtain ⟨k1, v1⟩ := kv
    have hk : k1 ≠ k := by
      intro e
      simp [dlookup, e] at h
    have hr : dlookup rest k = none := by
      simpa [dlookup, hk] using h
    simp [dinsert, dpop, hk, ih hr]

lemma filterAndSortDisplayed_eq (env : Env) (s : ModelState) :
    filterAndSortDisplayed env s = { s with displayed := canonicalDisplayed env s } := rfl

lemma filterAndSortSelected_eq (env : Env) (s : ModelState) :
    filterAndSortSelected env s = { s with selected := canonicalSelected env s } := rfl

/-- Fixture environment: the distance function and label tables are
irrelevant to the concrete runs (no distance, region or mountain-range key
is active in them). -/
def env0 : Env := { dist := fun _ _ _ _ => 0, regionLabel := id, mountainLabel := id }

/-- Fixture hut A. -/
def hutA : Hut := ⟨"A", "CH", "r", "m", false, 46, 8, 1000, "de"⟩

/-- Fixture hut B. -/
def hutB : Hut := ⟨"B", "CH", "r", "m", false, 47, 9, 1200, "de"⟩

/-- Result for hut 1: no free bed on date 100, five on date 101. -/
def rc1 : HutResult :=
  { error := none, warning := none, requestTime := 0,
    requestedDates := [100, 101],
    places := [(100, [("dormitory", 0)]), (101, [("dormitory", 5)])] }

/-- Result for hut 2: five free beds on date 100, none on date 101. -/
def rc2 : HutResult :=
  { error := none, warning := none, requestTime := 0,
    requestedDates := [100, 101],
    places := [(100, [("dormitory", 5)]), (101, [("dormitory", 0)])] }

/-- Results dictionary of the fixture model. -/
def resC : Results := [(1, rc1), (2, rc2)]

/-- Fixture state as after initialization: both huts displayed, nothing
selected, no active filter, no active sort, request date 100 for one day. -/
def s0 : ModelState :=
  { hutsDictionary := [(1, hutA), (2, hutB)],
    resultsDictionary := resC,
    displayed := [1, 2],
    allSelected := [], selected := [],
    filterDisplayedKeys := [], filterSelectedKeys := [],
    sortDisplayedKey := none, sortDisplayedAscending := true,
    sortSelectedKey := none, sortSelectedAscending := true,
    requestDate := 100, numberDays := 1,
    referenceLocation := (48, -11) }

/-- Parameters of the availability filter with bounds 1 and 10. -/
def pAvail : FilterParams := { minV := some 1, maxV := some 10 }

/-- Parameters of the country filter for country CH. -/
def pCH : FilterParams := { value := some "CH" }

/-- Reachable state falsifying C6 as stated: from s0, the availability
filter is applied under request date 100 (keeping only hut 2), then
update_dates moves the request date to 101 without re-applying filters. -/
def sAfter : ModelState := updateDates env0 101 1 (filterDisplayedBy env0 "available" pAvail s0)

/-- Counterexample to C6 as stated: in the reachable state sAfter the
displayed list is [2]; toggling the country filter on and off recomputes the
canonical list under the CURRENT request date 101, yielding [1], not the
pre-filter list [2]. -/
theorem filterDisplayedBy_double_toggle_changes_list :
    sAfter.displayed = [2]
    ∧ (filterDisplayedBy env0 "country" pCH
        (filterDisplayedBy env0 "country" pCH sAfter)).displayed = [1]
    ∧ (filterDisplayedBy env0 "country" pCH
        (filterDisplayedBy env0 "country" pCH sAfter)).displayed ≠ sAfter.displayed :=
  ⟨by decide, by decide, by decide⟩

/-- C6 amended: applying the same filter key twice in succession with
identical parameters returns the displayed (respectively selected) list to
its state before the first call, PROVIDED the list is canonical for the
current state (equal to the unfiltered base passed through the active
filters and sort under the current dates and results, which holds unless the
request dates, reference data or results changed since the last
recomputation); the first call applies the filter and marks the key active,
the second removes the key and recomputes from the unfiltered base.  The
active filter keys are restored as well. -/
theorem filter_toggle_restores (env : Env) (key : String) (p : FilterParams)
    (s : ModelState)
    (hkd : dlookup s.filterDisplayedKeys key = none)
    (hcd : s.displayed = canonicalDisplayed env s)
    (hks : dlookup s.filterSelectedKeys key = none)
    (hcs : s.selected = canonicalSelected env s) :
    ((filterDisplayedBy env key p (filterDisplayedBy env key p s)).displayed = s.displayed
     ∧ (filterDisplayedBy env key p (filterDisplayedBy env key p s)).filterDisplayedKeys
         = s.filterDisplayedKeys)
    ∧ ((filterSelectedBy env key p (filterSelectedBy env key p s)).selected = s.selected
     ∧ (filterSelectedBy env key p (filterSelectedBy env key p s)).filterSelectedKeys
         = s.filterSelectedKeys) := by
  have e1 : filterDisplayedBy env key p s =
      { s with
        displayed := (filterBy env s.hutsDictionary s.resultsDictionary s.referenceLocation
          (requestDates s) key p s.displayed),
        filterDisplayedKeys := dinsert key p s.filterDisplayedKeys } := by
    unfold filterDisplayedBy
    rw [hkd]
    rfl
  have e2 : filterDisplayedBy env key p (filterDisplayedBy env key p s) =
      filterAndSortDisplayed env
        { s with
          displayed := (filterBy env s.hutsDictionary s.resultsDictionary s.referenceLocation
            (requestDates s) key p s.displayed),
          filterDisplayedKeys := s.filterDisplayedKeys } := by
    rw [e1]
    unfold filterDisplayedBy
    rw [show dlookup ({ s with
        displayed := (filterBy env s.hutsDictionary s.resultsDictionary s.referenceLocation
          (requestDates s) key p s.displayed),
        filterDisplayedKeys := dinsert key p s.filterDisplayedKeys } :
          ModelState).filterDisplayedKeys key = some p from
      dlookup_dinsert_self s.filterDisplayedKeys key p]
    rw [show dpop key (dinsert key p s.filterDisplayedKeys) = s.filterDisplayedKeys from
      dpop_dinsert s.filterDisplayedKeys key p hkd]
    rfl
  have e1s : filterSelectedBy env key p s =
      { s with
        selected := (filterBy env s.hutsDictionary s.resultsDictionary s.referenceLocation
          (requestDates s) key p s.selected),
        filterSelectedKeys := dinsert key p s.filterSelectedKeys } := by
    unfold filterSelectedBy
    rw [hks]
    rfl
  have e2s : filterSelectedBy env key p (filterSelectedBy env key p s) =
      filterAndSortSelected env
        { s with
          selected := (filterBy env s.hutsDictionary s.resultsDictionary s.referenceLocation
            (requestDates s) key p s.selected),
          filterSelectedKeys := s.filterSelectedKeys } := by
    rw [e1s]
    unfold filterSelectedBy
    rw [show dlookup ({ s with
        selected := (filterBy env s.hutsDictionary s.resultsDictionary s.referenceLocation
          (requestDates s) key p s.selected),
        filterSelectedKeys := dinsert key p s.filterSelectedKeys } :
          ModelState).filterSelectedKeys key = some p from
      dlookup_dinsert_self s.filterSelectedKeys key p]
    rw [show dpop key (dinsert key p s.filterSelectedKeys) = s.filterSelectedKeys from
      dpop_dinsert s.filterSelectedKeys key p hks]
    rfl
  refine ⟨⟨?_, ?_⟩, ?_, ?_⟩
  · rw [e2, filterAndSortDisplayed_eq]
    exact hcd.symm
  · rw [e2, filterAndSortDisplayed_eq]
  · rw [e2s, filterAndSortSelected_eq]
    exact hcs.symm
  · rw [e2s, filterAndSortSelected_eq]

/-- Witness for the amended C6 at the canonical fixture state s0: toggling
the country filter twice restores both lists and the filter keys. -/
theorem filter_toggle_restores_witness :
    (dlookup s0.filterDisplayedKeys "country" = none
     ∧ s0.displayed = canonicalDisplayed env0 s0
     ∧ dlookup s0.filterSelectedKeys "country" = none
     ∧ s0.selected = canonicalSelected env0 s0)
    ∧ (filterDisplayedBy env0 "country" pCH
        (filterDisplayedBy env0 "country" pCH s0)).displayed = s0.displayed
    ∧ (filterSelectedBy env0 "country" pCH
        (filterSelectedBy env0 "country" pCH s0)).selected = s0.selected :=
  ⟨⟨rfl, by decide, rfl, by decide⟩,
   (filter_toggle_restores env0 "country" pCH s0 rfl (by decide) rfl (by decide)).1.1,
   (filter_toggle_restores env0 "country" pCH s0 rfl (by decide) rfl (by decide)).2.1⟩

/-! ## C10: out-of-range reference locations are rejected silently -/

/-- C10: when the latitude is not strictly between -90 and 90 or the
longitude not strictly between -180 and 180 (boundary values rejected), the
stored reference location is left unchanged and no error occurs: the state
is still re-sorted (displayed and selected) and the view-update data is
still returned, carrying the old reference location. -/
theorem setReferenceLocation_out_of_range (env : Env) (latRef lonRef : ℚ)
    (s : ModelState)
    (h : ¬ (-90 < latRef ∧ latRef < 90 ∧ -180 < lonRef ∧ lonRef < 180)) :
    (setReferenceLocation env latRef lonRef s).1.referenceLocation = s.referenceLocation
    ∧ (setReferenceLocation env latRef lonRef s).1 = sortSelected env (sortDisplayed env s)
    ∧ (setReferenceLocation env latRef lonRef s).2
        = ((sortSelected env (sortDisplayed env s)).displayed,
           ((sortSelected env (sortDisplayed env s)).selected,
            (sortSelected env (sortDisplayed env s)).allSelected),
           s.referenceLocation) := by
  have e1 : setReferenceLocation env latRef lonRef s
      = (sortSelected env (sortDisplayed env s),
         ((sortSelected env (sortDisplayed env s)).displayed,
          ((sortSelected env (sortDisplayed env s)).selected,
           (sortSelected env (sortDisplayed env s)).allSelected),
          (sortSelected env (sortDisplayed env s)).referenceLocation)) := by
    unfold setReferenceLocation
    rw [if_neg h]
  refine ⟨?_, ?_, ?_⟩
  · rw [e1]
    rfl
  · rw [e1]
  · rw [e1]
    rfl

/-- Witness for C10: latitude exactly 90 (a rejected boundary value) leaves
the reference location of s0 unchanged while the lists are still processed. -/
theorem setReferenceLocation_out_of_range_witness :
    ¬ ((-90 : ℚ) < 90 ∧ (90 : ℚ) < 90 ∧ (-180 : ℚ) < 0 ∧ (0 : ℚ) < 180)
    ∧ (setReferenceLocation env0 90 0 s0).1.referenceLocation = s0.referenceLocation
    ∧ (setReferenceLocation env0 90 0 s0).1.displayed = s0.displayed :=
  ⟨by decide,
   (setReferenceLocation_out_of_range env0 90 0 s0 (by decide)).1,
   by decide⟩

/-! ## Marker grouping of the map (map_tools.NavigableMap)

The grouping operates on the pixel positions stored in the huts data (the
fields x and y computed by _compute_huts_pixel_positions) and on the group
field of each hut; positions and groups are embedded as two dicts over the
same keys.  The hut icon footprint _HUT_ICON_SIZE is (25, 25). -/

/-- Pixel position of a hut marker. -/
abbrev HPos := Int × Int

/-- Embedding of NavigableMap._check_overlap with _HUT_ICON_SIZE = (25, 25). -/
def checkOverlap (xFirst yFirst xSecond ySecond : Int) : Bool :=
  decide ((xFirst - xSecond).natAbs < 25 ∧ (yFirst - ySecond).natAbs < 25)

/-- Position lookup self._huts_data[index_check]; representatives are keys of
the dict, for which the lookup cannot fail. -/
def hposOf (huts : Dict HutId HPos) (i : HutId) : HPos := (dlookup huts i).getD (0, 0)

/-- Group initialization of _compute_huts_groups: every hut starts with an
empty group. -/
def initGroups (huts : Dict HutId HPos) : Dict HutId (List HutId) :=
  huts.map fun e => (e.1, [])

/-- One iteration of the _huts_grouping loop over one hut entry: the hut is
checked against the previously chosen representatives in order (the for loop
with break); on the first overlap it is appended to that representative's
group, otherwise it is appended to its own group and becomes a
representative. -/
def groupStep (huts : Dict HutId HPos) (st : Dict HutId (List HutId) × List HutId)
    (entry : HutId × HPos) : Dict HutId (List HutId) × List HutId :=
  match st.2.find? (fun ic =>
      checkOverlap entry.2.1 entry.2.2 (hposOf huts ic).1 (hposOf huts ic).2) with
  | some ic => (dupdate ic (fun g => g ++ [entry.1]) st.1, st.2)
  | none => (dupdate entry.1 (fun g => g ++ [entry.1]) st.1, st.2 ++ [entry.1])

/-- Embedding of NavigableMap._huts_grouping: iterate the huts in catalog
order, growing the groups dict and the representative list. -/
def hutsGrouping (huts : Dict HutId HPos) : Dict HutId (List HutId) :=
  (huts.foldl (groupStep huts) (initGroups huts, [])).1

/-- Embedding of NavigableMap._compute_huts_groups: below the maximum zoom
the greedy grouping runs; at the maximum zoom (and above) every hut gets its
own index appended to its empty group. -/
def computeHutsGroups (zoom maxZoom : Int) (huts : Dict HutId HPos) :
    Dict HutId (List HutId) :=
  if zoom < maxZoom then hutsGrouping huts
  else huts.foldl (fun gs e => dupdate e.1 (fun g => g ++ [e.1]) gs) (initGroups huts)

/-- Modelled from the spec words for comparison: a cluster representative
carries its pixel position and its group; a new hut is appended to the group
of the FIRST representative whose icon footprint contains it, otherwise it
is appended to the representative list with a singleton group. -/
def specInsert (entry : HutId × HPos) :
    List (HutId × HPos × List HutId) → List (HutId × HPos × List HutId)
  | [] => [(entry.1, entry.2, [entry.1])]
  | t :: ts =>
    if checkOverlap entry.2.1 entry.2.2 t.2.1.1 t.2.1.2
    then (t.1, t.2.1, t.2.2 ++ [entry.1]) :: ts
    else t :: specInsert entry ts

/-- Modelled from the spec words: the representatives obtained by growing
clusters greedily over the huts in catalog order. -/
def specReps (huts : Dict HutId HPos) : List (HutId × HPos × List HutId) :=
  huts.foldl (fun a e => specInsert e a) []

/-- Group of a hut among the representatives (none when the hut is not a
representative). -/
def lookupRep : List (HutId × HPos × List HutId) → HutId → Option (List HutId)
  | [], _ => none
  | t :: ts, i => if t.1 = i then some t.2.2 else lookupRep ts i

/-- Modelled from the spec words: the groups dict described by the spec, a
representative owns its grown group, every other hut has an empty group. -/
def groupingFromSpec (huts : Dict HutId HPos) : Dict HutId (List HutId) :=
  huts.map fun e => (e.1, (lookupRep (specReps huts) e.1).getD [])

/-! ## Helper lemmas for the grouping refinement -/

lemma map_snd_cond_eq {G : HutId → List HutId} {f : List HutId → List HutId}
    {k : HutId} (huts : Dict HutId HPos) (hk : k ∉ dkeys huts) :
    (huts.map fun e => (e.1, if e.1 = k then f (G e.1) else G e.1))
      = huts.map fun e => (e.1, G e.1) := by
  induction huts with
  | nil => rfl
  | cons kv rest ih =>
    have h1 : kv.1 ≠ k := fun e => hk (by simp [dkeys, e])
    simp only [List.map_cons, if_neg h1]
    rw [ih fun hm => hk (by simp [dkeys] at hm ⊢; exact Or.inr hm)]

lemma dupdate_map (huts : Dict HutId HPos) (G : HutId → List HutId)
    (f : List HutId → List HutId) (k : HutId) (hnd : (dkeys huts).Nodup) :
    dupdate k f (huts.map fun e => (e.1, G e.1))
      = huts.map fun e => (e.1, if e.1 = k then f (G e.1) else G e.1) := by
  induction huts with
  | nil => rfl
  | cons kv rest ih =>
    have hnd2 : (dkeys (kv :: rest)).Nodup := by simpa [dkeys] using hnd
    have hk : kv.1 ∉ dkeys rest := (List.nodup_cons.mp hnd2).1
    have hnd' : (dkeys rest).Nodup := (List.nodup_cons.mp hnd2).2
    by_cases h : kv.1 = k
    · simp only [List.map_cons, dupdate, if_pos h]
      rw [map_snd_cond_eq rest (h ▸ hk)]
    · simp only [List.map_cons, dupdate, if_neg h]
      rw [ih hnd']

lemma lookupRep_eq_none_iff (reps : List (HutId × HPos × List HutId)) (i : HutId) :
    lookupRep reps i = none ↔ i ∉ reps.map fun t => t.1 := by
  induction reps with
  | nil => simp [lookupRep]
  | cons t ts ih =>
    by_cases h : t.1 = i
    · simp [lookupRep, h]
    · simp [lookupRep, h, ih, Ne.symm h]

lemma lookupRep_of_mem (reps : List (HutId × HPos × List HutId))
    (t : HutId × HPos × List HutId) (hnd : (reps.map fun u => u.1).Nodup)
    (ht : t ∈ reps) : lookupRep reps t.1 = some t.2.2 := by
  induction reps with
  | nil => cases ht
  | cons u us ih =>
    have hnd' : (us.map fun v => v.1).Nodup := (List.nodup_cons.mp hnd).2
    have hu : u.1 ∉ us.map fun v => v.1 := (List.nodup_cons.mp hnd).1
    rcases List.mem_cons.mp ht with rfl | hm
    · simp [lookupRep]
    · have : u.1 ≠ t.1 := by
        intro e
        exact hu (e ▸ List.mem_map_of_mem (fun v => v.1) hm)
      simp [lookupRep, this, ih hnd' hm]

lemma dlookup_of_mem (huts : Dict HutId HPos) (e : HutId × HPos)
    (hnd : (dkeys huts).Nodup) (he : e ∈ huts) : dlookup huts e.1 = some e.2 := by
  induction huts with
  | nil => cases he
  | cons kv rest ih =>
    have hnd2 : (dkeys (kv :: rest)).Nodup := by simpa [dkeys] using hnd
    have hk : kv.1 ∉ dkeys rest := (List.nodup_cons.mp hnd2).1
    have hnd' : (dkeys rest).Nodup := (List.nodup_cons.mp hnd2).2
    rcases List.mem_cons.mp he with rfl | hm
    · simp [dlookup]
    · have : kv.1 ≠ e.1 := by
        intro h
        exact hk (h ▸ List.mem_map_of_mem Prod.fst hm)
      simp [dlookup, this, ih hnd' hm]

lemma find_rep (huts : Dict HutId HPos) (acc : List (HutId × HPos × List HutId))
    (x y : Int) (hrep : ∀ t ∈ acc, dlookup huts t.1 = some t.2.1) :
    (acc.map fun t => t.1).find? (fun ic =>
        checkOverlap x y (hposOf huts ic).1 (hposOf huts ic).2)
      = (acc.find? fun t => checkOverlap x y t.2.1.1 t.2.1.2).map fun t => t.1 := by
  induction acc with
  | nil => rfl
  | cons t ts ih =>
    have hp : hposOf huts t.1 = t.2.1 := by
      simp [hposOf, hrep t (List.mem_cons_self t ts)]
    by_cases hov : checkOverlap x y t.2.1.1 t.2.1.2 = true
    · simp [List.find?_cons, hp, hov]
    · have hov' : checkOverlap x y t.2.1.1 t.2.1.2 = false := by
        simpa using hov
      simp only [List.map_cons, List.find?_cons, hp, hov']
      exact ih fun u hu => hrep u (List.mem_cons_of_mem t hu)

lemma specInsert_map_fst_found (acc : List (HutId × HPos × List HutId))
    (entry : HutId × HPos) (t : HutId × HPos × List HutId)
    (hf : acc.find? (fun u => checkOverlap entry.2.1 entry.2.2 u.2.1.1 u.2.1.2) = some t) :
    (specInsert entry acc).map (fun u => u.1) = acc.map fun u => u.1 := by
  induction acc with
  | nil => simp [List.find?] at hf
  | cons u us ih =>
    by_cases hov : checkOverlap entry.2.1 entry.2.2 u.2.1.1 u.2.1.2 = true
    · simp [specInsert, hov]
    · have hov' : checkOverlap entry.2.1 entry.2.2 u.2.1.1 u.2.1.2 = false := by
        simpa using hov
      have hf' : us.find? (fun v => checkOverlap entry.2.1 entry.2.2 v.2.1.1 v.2.1.2)
          = some t := by
        simpa [List.find?_cons, hov'] using hf
      simp [specInsert, hov', ih hf']

lemma specInsert_map_fst_none (acc : List (HutId × HPos × List HutId))
    (entry : HutId × HPos)
    (hf : acc.find? (fun u => checkOverlap entry.2.1 entry.2.2 u.2.1.1 u.2.1.2) = none) :
    (specInsert entry acc).map (fun u => u.1) = (acc.map fun u => u.1) ++ [entry.1] := by
  induction acc with
  | nil => simp [specInsert]
  | cons u us ih =>
    have hov' : checkOverlap entry.2.1 entry.2.2 u.2.1.1 u.2.1.2 = false := by
      by_contra hc
      have : checkOverlap entry.2.1 entry.2.2 u.2.1.1 u.2.1.2 = true := by
        simpa using hc
      simp [List.find?_cons, this] at hf
    have hf' : us.find? (fun v => checkOverlap entry.2.1 entry.2.2 v.2.1.1 v.2.1.2)
        = none := by
      simpa [List.find?_cons, hov'] using hf
    simp [specInsert, hov', ih hf']

lemma lookupRep_specInsert_found (acc : List (HutId × HPos × List HutId))
    (entry : HutId × HPos) (t : HutId × HPos × List HutId)
    (hnd : (acc.map fun u => u.1).Nodup)
    (hf : acc.find? (fun u => checkOverlap entry.2.1 entry.2.2 u.2.1.1 u.2.1.2) = some t)
    (i : HutId) :
    lookupRep (specInsert entry acc) i
      = if t.1 = i then some (t.2.2 ++ [entry.1]) else lookupRep acc i := by
  induction acc with
  | nil => simp [List.find?] at hf
  | cons u us ih =>
    have hnd' : (us.map fun v => v.1).Nodup := (List.nodup_cons.mp hnd).2
    have hu : u.1 ∉ us.map fun v => v.1 := (List.nodup_cons.mp hnd).1
    by_cases hov : checkOverlap entry.2.1 entry.2.2 u.2.1.1 u.2.1.2 = true
    · have ht : t = u := by
        have := hf
        simp [List.find?_cons, hov] at this
        exact this.symm
      subst ht
      by_cases hi : t.1 = i
      · simp [specInsert, hov, lookupRep, hi]
      · simp [specInsert, hov, lookupRep, hi]
    · have hov' : checkOverlap entry.2.1 entry.2.2 u.2.1.1 u.2.1.2 = false := by
        simpa using hov
      have hf' : us.find? (fun v => checkOverlap entry.2.1 entry.2.2 v.2.1.1 v.2.1.2)
          = some t := by
        simpa [List.find?_cons, hov'] using hf
      have htm : t ∈ us := List.mem_of_find?_eq_some hf'
      have htne : t.1 ≠ u.1 := by
        intro e
        exact hu (e ▸ List.mem_map_of_mem (fun v => v.1) htm)
      by_cases hi : u.1 = i
      · have hti : ¬ (t.1 = i) := fun e => htne (e.trans hi.symm)
        simp [specInsert, hov', lookupRep, hi, hti]
      · simp only [specInsert, hov', if_neg, lookupRep]
        rw [if_neg hi, if_neg hi, ih hnd' hf']

lemma lookupRep_specInsert_none (acc : List (HutId × HPos × List HutId))
    (entry : HutId × HPos)
    (hne : lookupRep acc entry.1 = none)
    (hf : acc.find? (fun u => checkOverlap entry.2.1 entry.2.2 u.2.1.1 u.2.1.2) = none)
    (i : HutId) :
    lookupRep (specInsert entry acc) i
      = if entry.1 = i then some [entry.1] else lookupRep acc i := by
  induction acc with
  | nil => simp [specInsert, lookupRep]
  | cons u us ih =>
    have hov' : checkOverlap entry.2.1 entry.2.2 u.2.1.1 u.2.1.2 = false := by
      by_contra hc
      have : checkOverlap entry.2.1 entry.2.2 u.2.1.1 u.2.1.2 = true := by
        simpa using hc
      simp [List.find?_cons, this] at hf
    have hf' : us.find? (fun v => checkOverlap entry.2.1 entry.2.2 v.2.1.1 v.2.1.2)
        = none := by
      simpa [List.find?_cons, hov'] using hf
    have hue : u.1 ≠ entry.1 := by
      intro e
      simp [lookupRep, e] at hne
    have hne' : lookupRep us entry.1 = none := by
      simpa [lookupRep, hue] using hne
    by_cases hi : u.1 = i
    · have hei : ¬ (entry.1 = i) := fun e => hue (hi.trans e.symm)
      simp [specInsert, hov', lookupRep, hi, hei]
    · simp only [specInsert, hov', if_neg, lookupRep]
      rw [if_neg hi, ih hne' hf']
      by_cases he : entry.1 = i <;> simp [he, hi]

lemma specInsert_pos_mem (acc : List (HutId × HPos × List HutId))
    (entry : HutId × HPos) :
    ∀ u ∈ specInsert entry acc,
      (u.1 = entry.1 ∧ u.2.1 = entry.2) ∨ ∃ v ∈ acc, u.1 = v.1 ∧ u.2.1 = v.2.1 := by
  induction acc with
  | nil =>
    intro u hu
    simp [specInsert] at hu
    subst hu
    exact Or.inl ⟨rfl, rfl⟩
  | cons t ts ih =>
    intro u hu
    by_cases hov : checkOverlap entry.2.1 entry.2.2 t.2.1.1 t.2.1.2 = true
    · simp only [specInsert, hov, if_pos] at hu
      rcases List.mem_cons.mp hu with rfl | hm
      · exact Or.inr ⟨t, List.mem_cons_self t ts, rfl, rfl⟩
      · exact Or.inr ⟨u, List.mem_cons_of_mem t hm, rfl, rfl⟩
    · have hov' : checkOverlap entry.2.1 entry.2.2 t.2.1.1 t.2.1.2 = false := by
        simpa using hov
      simp only [specInsert, hov', Bool.false_eq_true, if_false] at hu
      rcases List.mem_cons.mp hu with rfl | hm
      · exact Or.inr ⟨u, List.mem_cons_self u ts, rfl, rfl⟩
      · rcases ih u hm with h | ⟨v, hv, h1, h2⟩
        · exact Or.inl h
        · exact Or.inr ⟨v, List.mem_cons_of_mem t hv, h1, h2⟩

lemma map_congr_on {α β : Type} (l : List α) (f g : α → β)
    (h : ∀ e ∈ l, f e = g e) : l.map f = l.map g := by
  induction l with
  | nil => rfl
  | cons a as ih =>
    simp only [List.map_cons]
    rw [h a (List.mem_cons_self a as), ih fun e he => h e (List.mem_cons_of_mem a he)]

/-- One grouping step corresponds to one greedy step of the spec model:
starting from the groups and representative ids induced by the spec
accumulator, the step yields the groups and ids induced by the grown
accumulator. -/
lemma step_correspond (huts : Dict HutId HPos) (entry : HutId × HPos)
    (acc : List (HutId × HPos × List HutId))
    (hnd : (dkeys huts).Nodup)
    (hrep : ∀ t ∈ acc, dlookup huts t.1 = some t.2.1)
    (hrepnd : (acc.map fun t => t.1).Nodup)
    (hne : lookupRep acc entry.1 = none) :
    groupStep huts
        (huts.map (fun e => (e.1, (lookupRep acc e.1).getD [])), acc.map fun t => t.1)
        entry
      = (huts.map (fun e => (e.1, (lookupRep (specInsert entry acc) e.1).getD [])),
         (specInsert entry acc).map fun t => t.1) := by
  cases hf : acc.find? (fun u => checkOverlap entry.2.1 entry.2.2 u.2.1.1 u.2.1.2) with
  | some t =>
    have hfr : (acc.map fun u => u.1).find? (fun ic =>
        checkOverlap entry.2.1 entry.2.2 (hposOf huts ic).1 (hposOf huts ic).2)
        = some t.1 := by
      rw [find_rep huts acc entry.2.1 entry.2.2 hrep, hf]
      rfl
    have htm : t ∈ acc := List.mem_of_find?_eq_some hf
    have hlt : lookupRep acc t.1 = some t.2.2 := lookupRep_of_mem acc t hrepnd htm
    simp only [groupStep, hfr]
    refine Prod.ext ?_ ?_
    · rw [dupdate_map huts (fun i => (lookupRep acc i).getD []) (fun g => g ++ [entry.1])
        t.1 hnd]
      apply map_congr_on
      intro e he
      rw [lookupRep_specInsert_found acc entry t hrepnd hf e.1]
      by_cases hi : e.1 = t.1
      · simp [hi, hlt]
      · have hti : ¬ (t.1 = e.1) := fun h => hi h.symm
        simp [hi, hti]
    · exact (specInsert_map_fst_found acc entry t hf).symm
  | none =>
    have hfr : (acc.map fun u => u.1).find? (fun ic =>
        checkOverlap entry.2.1 entry.2.2 (hposOf huts ic).1 (hposOf huts ic).2)
        = none := by
      rw [find_rep huts acc entry.2.1 entry.2.2 hrep, hf]
      rfl
    simp only [groupStep, hfr]
    refine Prod.ext ?_ ?_
    · rw [dupdate_map huts (fun i => (lookupRep acc i).getD []) (fun g => g ++ [entry.1])
        entry.1 hnd]
      apply map_congr_on
      intro e he
      rw [lookupRep_specInsert_none acc entry hne hf e.1]
      by_cases hi : e.1 = entry.1
      · simp [hi, hne]
      · have hei : ¬ (entry.1 = e.1) := fun h => hi h.symm
        simp [hi, hei]
    · exact (specInsert_map_fst_none acc entry hf).symm

/-- Loop refinement: folding the grouping step over the remaining huts,
starting from any spec accumulator state, computes the groups and ids of the
spec accumulator grown over the same huts. -/
lemma grouping_loop (huts : Dict HutId HPos) (hnd : (dkeys huts).Nodup)
    (rest : List (HutId × HPos)) :
    ∀ (acc : List (HutId × HPos × List HutId)),
    (∀ e ∈ rest, dlookup huts e.1 = some e.2) →
    (∀ e ∈ rest, lookupRep acc e.1 = none) →
    (rest.map Prod.fst).Nodup →
    (∀ t ∈ acc, dlookup huts t.1 = some t.2.1) →
    (acc.map fun t => t.1).Nodup →
    rest.foldl (groupStep huts)
        (huts.map (fun e => (e.1, (lookupRep acc e.1).getD [])), acc.map fun t => t.1)
      = (huts.map (fun e => (e.1,
            (lookupRep (rest.foldl (fun a e => specInsert e a) acc) e.1).getD [])),
         (rest.foldl (fun a e => specInsert e a) acc).map fun t => t.1) := by
  induction rest with
  | nil =>
    intro acc _ _ _ _ _
    rfl
  | cons e rest' ih =>
    intro acc hsub hnew hndr hrep hrepnd
    have he : dlookup huts e.1 = some e.2 := hsub e (List.mem_cons_self e rest')
    have hnee : lookupRep acc e.1 = none := hnew e (List.mem_cons_self e rest')
    have hid : e.1 ∉ acc.map fun t => t.1 := (lookupRep_eq_none_iff acc e.1).mp hnee
    rw [List.map_cons] at hndr
    have hndr' : (rest'.map Prod.fst).Nodup := (List.nodup_cons.mp hndr).2
    have hehd : e.1 ∉ rest'.map Prod.fst := (List.nodup_cons.mp hndr).1
    rw [List.foldl_cons, step_correspond huts e acc hnd hrep hrepnd hnee, List.foldl_cons]
    refine ih (specInsert e acc) (fun u hu => hsub u (List.mem_cons_of_mem e hu)) ?_
      hndr' ?_ ?_
    · intro u hu
      rw [lookupRep_eq_none_iff]
      have hnu : lookupRep acc u.1 = none := hnew u (List.mem_cons_of_mem e hu)
      have hnid : u.1 ∉ acc.map fun t => t.1 := (lookupRep_eq_none_iff acc u.1).mp hnu
      have hue : u.1 ≠ e.1 := by
        intro hcontra
        exact hehd (hcontra ▸ List.mem_map_of_mem Prod.fst hu)
      cases hf : acc.find? (fun v => checkOverlap e.2.1 e.2.2 v.2.1.1 v.2.1.2) with
      | some t =>
        rw [specInsert_map_fst_found acc e t hf]
        exact hnid
      | none =>
        rw [specInsert_map_fst_none acc e hf]
        intro hm
        rcases List.mem_append.mp hm with hm1 | hm2
        · exact hnid hm1
        · exact hue (by simpa using hm2)
    · intro t ht
      rcases specInsert_pos_mem acc e t ht with ⟨h1, h2⟩ | ⟨v, hv, h1, h2⟩
      · rw [h1, h2]
        exact he
      · rw [h1, h2]
        exact hrep v hv
    · cases hf : acc.find? (fun v => checkOverlap e.2.1 e.2.2 v.2.1.1 v.2.1.2) with
      | some t =>
        rw [specInsert_map_fst_found acc e t hf]
        exact hrepnd
      | none =>
        rw [specInsert_map_fst_none acc e hf]
        refine hrepnd.append (List.nodup_singleton e.1) ?_
        intro a ha hb
        rw [List.mem_singleton] at hb
        exact hid (hb ▸ ha)

/-- Loop computation of the singleton branch of _compute_huts_groups: each
iteration appends the hut index to its own group. -/
lemma singleton_loop (huts : Dict HutId HPos) (hnd : (dkeys huts).Nodup)
    (rest : List (HutId × HPos)) :
    ∀ (G : HutId → List HutId),
    rest.foldl (fun gs e => dupdate e.1 (fun g => g ++ [e.1]) gs)
        (huts.map fun e => (e.1, G e.1))
      = huts.map fun e => (e.1,
          rest.foldl (fun g re => if e.1 = re.1 then g ++ [re.1] else g) (G e.1)) := by
  induction rest with
  | nil =>
    intro G
    rfl
  | cons re rest' ih =>
    intro G
    rw [List.foldl_cons, dupdate_map huts G (fun g => g ++ [re.1]) re.1 hnd,
      ih fun i => if i = re.1 then G i ++ [re.1] else G i]
    apply map_congr_on
    intro e he
    simp only [List.foldl_cons]

lemma foldl_append_filter (i : HutId) (l : List (HutId × HPos)) :
    ∀ acc : List HutId,
    l.foldl (fun g re => if i = re.1 then g ++ [re.1] else g) acc
      = acc ++ (l.filter fun re => decide (i = re.1)).map fun re => re.1 := by
  induction l with
  | nil =>
    intro acc
    simp
  | cons re rest ih =>
    intro acc
    rw [List.foldl_cons]
    by_cases h : i = re.1
    · rw [if_pos h, ih (acc ++ [re.1]), List.filter_cons]
      simp [h, List.append_assoc]
    · rw [if_neg h, ih acc, List.filter_cons]
      simp [h]

lemma filter_id_singleton (l : List (HutId × HPos)) (hnd2 : (l.map Prod.fst).Nodup)
    (e : HutId × HPos) (he : e ∈ l) :
    (l.filter fun re => decide (e.1 = re.1)).map (fun re => re.1) = [e.1] := by
  induction l with
  | nil => cases he
  | cons u us ih =>
    have hu : u.1 ∉ us.map Prod.fst := (List.nodup_cons.mp hnd2).1
    have hnd' : (us.map Prod.fst).Nodup := (List.nodup_cons.mp hnd2).2
    rcases List.mem_cons.mp he with rfl | hm
    · have hfe : (us.filter fun re => decide (e.1 = re.1)) = [] := by
        rw [List.filter_eq_nil_iff]
        intro a ha
        simp only [decide_eq_true_eq]
        intro hcontra
        exact hu (hcontra ▸ List.mem_map_of_mem Prod.fst ha)
      simp [List.filter_cons, hfe]
    · have hne : e.1 ≠ u.1 := by
        intro h
        exact hu (h ▸ List.mem_map_of_mem Prod.fst hm)
      simp [List.filter_cons, hne, ih hnd' hm]

/-! ## C8: the marker grouping is the greedy clustering of the spec -/

/-- C8: below the maximum zoom, _compute_huts_groups computes exactly the
greedy clustering described by the spec (huts in catalog order, each hut
joins the group of the first earlier representative whose icon footprint it
falls into, otherwise becomes a representative with a singleton group);
at the maximum zoom level and above every hut gets its own singleton group.
The huts dict has unique keys (it is a Python dict). -/
theorem computeHutsGroups_spec (zoom maxZoom : Int) (huts : Dict HutId HPos)
    (hnd : (dkeys huts).Nodup) :
    computeHutsGroups zoom maxZoom huts
      = if zoom < maxZoom then groupingFromSpec huts
        else huts.map fun e => (e.1, [e.1]) := by
  by_cases hz : zoom < maxZoom
  · rw [computeHutsGroups, if_pos hz, if_pos hz]
    have hmain := grouping_loop huts hnd huts []
      (fun e he => dlookup_of_mem huts e hnd he)
      (fun e _ => rfl) hnd
      (fun t ht => absurd ht (List.not_mem_nil t))
      List.nodup_nil
    calc hutsGrouping huts
        = (huts.foldl (groupStep huts)
            (huts.map (fun e => (e.1,
              (lookupRep ([] : List (HutId × HPos × List HutId)) e.1).getD [])),
             ([] : List (HutId × HPos × List HutId)).map fun t => t.1)).1 := rfl
      _ = groupingFromSpec huts := by
            rw [hmain]
            rfl
  · rw [computeHutsGroups, if_neg hz, if_neg hz]
    calc huts.foldl (fun gs e => dupdate e.1 (fun g => g ++ [e.1]) gs) (initGroups huts)
        = huts.foldl (fun gs e => dupdate e.1 (fun g => g ++ [e.1]) gs)
            (huts.map fun e => (e.1, ([] : List HutId))) := rfl
      _ = huts.map fun e => (e.1,
            huts.foldl (fun g re => if e.1 = re.1 then g ++ [re.1] else g) []) := by
          rw [singleton_loop huts hnd huts fun _ => []]
      _ = huts.map fun e => (e.1, [e.1]) := by
          apply map_congr_on
          intro e he
          rw [foldl_append_filter e.1 huts [], filter_id_singleton huts hnd e he]
          rfl

/-- Fixture positions: huts 1 and 2 overlap (within 25 pixels), hut 3 is far
away. -/
def huts3 : Dict HutId HPos := [(1, (0, 0)), (2, (10, 10)), (3, (100, 100))]

/-- Witness for C8: at zoom 5 below max zoom 12 the source grouping equals
the spec grouping; hut 2 joins the group of representative hut 1 and hut 3
is its own representative; at max zoom every hut is a singleton group. -/
theorem computeHutsGroups_spec_witness :
    (dkeys huts3).Nodup
    ∧ computeHutsGroups 5 12 huts3
        = (if (5 : Int) < 12 then groupingFromSpec huts3
           else huts3.map fun e => (e.1, [e.1]))
    ∧ computeHutsGroups 5 12 huts3 = [(1, [1, 2]), (2, []), (3, [3])]
    ∧ computeHutsGroups 12 12 huts3 = [(1, [1]), (2, [2]), (3, [3])] :=
  ⟨by decide, computeHutsGroups_spec 5 12 huts3 (by decide), by decide, by decide⟩

end Chamannas
